import Mathlib

/-!
Verification development for `bin/mdstatscounters.py`, a polling monitor
that reads Lustre MDT counters, computes deltas between successive samples
and renders them in plain, table or CSV form.

The Python program is shallowly embedded: dynamic values are `Val`
(Python ints or strings), the two `OrderedDict`s `previous_stats` and
`deltas` are association lists that preserve insertion order, the delta
loop of `main` (lines 176-183) is `updateLoop`, the surrounding `while`
loop (lines 172-191) is `runLoop`, and the renderers `print_header` and
`print_stats` are the `printHeader...` and `printStats...` functions.
Failures (Python `ValueError` from `int`, `KeyError` from a missing dict
key, `TypeError` from `int - str`) are explicit `Except` errors.
-/

/-- Dynamic value stored in `previous_stats` / `deltas`: Python ints or the
raw snapshot string kept verbatim for `snapshot_time`. -/
inductive Val where
  | int (n : Int)
  | str (s : String)
deriving DecidableEq, Repr

/-- State of one of the ordered dictionaries. -/
abbrev St := List (String × Val)

/-- A snapshot as returned by `read_stats`: counter name to raw string. -/
abbrev Snap := List (String × String)

/-- Exit code constant `EXIT_OK = 0` (line 27). -/
def EXIT_OK : Nat := 0

/-- Exit code constant `EXIT_ERROR = 1` (line 28). -/
def EXIT_ERROR : Nat := 1

/-- The exit status produced by `signal_handler` (lines 30-37):
`sys.exit(EXIT_OK)` on SIGINT. -/
def signalHandlerExit : Nat := EXIT_OK

/-- The fixed counter schema, in the order `previous_stats` is initialised
in `main` (lines 149-165). -/
def schemaNames : List String :=
  ["snapshot_time", "open", "close", "mknod", "link", "unlink", "mkdir",
   "rmdir", "rename", "getattr", "setattr", "getxattr", "setxattr",
   "statfs", "sync", "samedir_rename"]

/-- `previous_stats` after initialisation: every schema name maps to 0
(lines 149-165); `deltas = previous_stats.copy()` (line 167) is identical. -/
def initState : St := schemaNames.map (fun n => (n, Val.int 0))

/-- Lookup in an association list (Python `m[k]`, `none` models `KeyError`). -/
def find? (m : St) (k : String) : Option Val :=
  match m with
  | [] => none
  | kv :: rest => if kv.1 = k then some kv.2 else find? rest k

/-- Assignment `m[k] = v` on an `OrderedDict`: replace in place when the key
exists, append at the end otherwise. -/
def odSet (m : St) (k : String) (v : Val) : St :=
  match m with
  | [] => [(k, v)]
  | kv :: rest => if kv.1 = k then (k, v) :: rest else kv :: odSet rest k v

/-- Key list of a state, in order. -/
def keysOf (m : St) : List String := m.map Prod.fst

/-- True when the character is Python whitespace (`str.strip` / `rstrip`). -/
def isPyWhite (c : Char) : Bool :=
  c = ' ' ∨ c = '\t' ∨ c = '\n' ∨ c = '\x0d' ∨ c = '\x0b' ∨ c = '\x0c'

/-- Fold decimal digits; `none` on the first non-digit character. -/
def parseNatGo : List Char → Nat → Option Nat
  | [], acc => some acc
  | c :: cs, acc =>
      if '0' ≤ c ∧ c ≤ '9' then parseNatGo cs (acc * 10 + (c.toNat - 48))
      else none

/-- Parse a nonempty all-digit character list as a natural number. -/
def parseNat : List Char → Option Nat
  | [] => none
  | c :: cs => parseNatGo (c :: cs) 0

/-- Model of Python 2 `int(s)` on a string: surrounding whitespace allowed,
one optional sign, then at least one decimal digit; `none` models the
`ValueError` raised otherwise. -/
def pyInt (s : String) : Option Int :=
  let l := s.data.dropWhile isPyWhite
  let l := (l.reverse.dropWhile isPyWhite).reverse
  match l with
  | '-' :: rest => (parseNat rest).map (fun n => -(n : Int))
  | '+' :: rest => (parseNat rest).map (fun n => (n : Int))
  | rest => (parseNat rest).map (fun n => (n : Int))

/-- A Python exception escaping the delta loop of `main` (lines 176-183). -/
inductive UpdErr where
  | valueError (s : String)
  | keyError (k : String)
  | typeError (k : String)
deriving DecidableEq, Repr

/-- One pass of the loop body of lines 176-183 for the key `stat` with raw
value `value`: the `snapshot_time` branch copies the raw value verbatim into
both dicts; otherwise `delta = int(value) - previous_stats[stat]` is stored
in `deltas` and `previous_stats[stat]` becomes `int(value)`.  `int` raises
before the `previous_stats` lookup because Python evaluates the left operand
of `-` first. -/
def updateStat (prev deltas : St) (stat value : String) :
    Except UpdErr (St × St) :=
  if stat = "snapshot_time" then
    .ok (odSet prev stat (Val.str value), odSet deltas stat (Val.str value))
  else
    match pyInt value with
    | none => .error (UpdErr.valueError value)
    | some n =>
      match find? prev stat with
      | none => .error (UpdErr.keyError stat)
      | some (Val.str _) => .error (UpdErr.typeError stat)
      | some (Val.int pv) =>
          .ok (odSet prev stat (Val.int n), odSet deltas stat (Val.int (n - pv)))

/-- The whole `for stat in current_stats` loop (lines 176-183), processing
the snapshot's key/value pairs in iteration order. -/
def updateLoop (prev deltas : St) : Snap → Except UpdErr (St × St)
  | [] => .ok (prev, deltas)
  | (stat, value) :: rest =>
      match updateStat prev deltas stat value with
      | .error e => .error e
      | .ok (p, d) => updateLoop p d rest

/-- Successive update calls starting from given dictionaries, one snapshot
per loop iteration. -/
def runUpdates : List Snap → St → St → Except UpdErr (St × St)
  | [], p, d => .ok (p, d)
  | s :: rest, p, d =>
      match updateLoop p d s with
      | .error e => .error e
      | .ok (p', d') => runUpdates rest p' d'

/-- All non-timestamp entries hold Python ints (as `previous_stats` must,
for the subtraction on line 181 to be defined). -/
def NonTsInt (m : St) : Prop :=
  ∀ kv ∈ m, kv.1 ≠ "snapshot_time" → ∃ n, kv.2 = Val.int n

/-- Every string value stored in the dictionary satisfies `P`. -/
def StrVals (P : String → Prop) (m : St) : Prop :=
  ∀ kv ∈ m, ∀ s, kv.2 = Val.str s → P s

/-- State of the `while 1` loop of `main` (lines 172-191): the two ordered
dictionaries, the `current_loop` counter (line 172), the list of delta
records passed to `print_stats` so far, and the number of `read_stats`
calls made so far. -/
structure PollState where
  prev : St
  deltas : St
  currentLoop : Nat
  rendered : List St
  samples : Nat
deriving DecidableEq, Repr

/-- How the loop ends: `finished rc` for the `break` on line 187 followed by
`return rc` (line 193), `readError` for an `IOError` escaping `read_stats`,
`updateError` for an exception escaping the delta loop. -/
inductive PollOutcome where
  | finished (rc : Nat)
  | readError
  | updateError (e : UpdErr)
deriving DecidableEq, Repr

/-- Result of running the loop with a given amount of fuel. -/
inductive RunResult where
  | done (outcome : PollOutcome) (st : PollState)
  | fuelOut (st : PollState)
deriving DecidableEq, Repr

/-- Loop state right before the first iteration: zeroed dictionaries
(lines 149-167) and `current_loop = 1` (line 172). -/
def initPoll : PollState := ⟨initState, initState, 1, [], 0⟩

/-- The `while 1` loop of `main` (lines 172-191).  `src i` is the snapshot
returned by the `i`-th `read_stats` call (`none` when the read raises).
Each iteration reads, runs the delta loop, then checks the iteration bound:
when `max_loop > 0` and `current_loop > max_loop` it breaks (before
rendering and sleeping), otherwise it renders the deltas and sleeps.  The
final `return rc` returns `rc = EXIT_ERROR`, which is set on line 139 and
never reassigned. -/
def runLoop (src : Nat → Option Snap) (maxLoop : Int) :
    Nat → PollState → RunResult
  | 0, st => .fuelOut st
  | fuel+1, st =>
    match src st.samples with
    | none => .done .readError { st with samples := st.samples + 1 }
    | some snap =>
      let st1 : PollState := { st with samples := st.samples + 1 }
      match updateLoop st1.prev st1.deltas snap with
      | .error e => .done (.updateError e) st1
      | .ok (p, d) =>
        let st2 : PollState := { st1 with prev := p, deltas := d }
        if 0 < maxLoop then
          if maxLoop < (st2.currentLoop : Int) then
            .done (.finished EXIT_ERROR) st2
          else
            runLoop src maxLoop fuel
              { st2 with currentLoop := st2.currentLoop + 1,
                         rendered := st2.rendered ++ [d] }
        else
          runLoop src maxLoop fuel { st2 with rendered := st2.rendered ++ [d] }

/-- Outcome projection of a loop result. -/
def resOutcome : RunResult → Option PollOutcome
  | .done o _ => some o
  | .fuelOut _ => none

/-- State projection of a loop result. -/
def resState : RunResult → PollState
  | .done _ st => st
  | .fuelOut st => st

/-- Process exit status of the whole program: `parse_cmdline` delegates a
non-positive interval to optparse `parser.error` (line 67), which exits the
process with status 2; an uncaught Python exception exits with status 1;
the `break` path returns `rc` from `main` into `sys.exit` (line 196).
`none` when the loop is still running after `fuel` iterations. -/
def mainExitCode (interval count : Int) (src : Nat → Option Snap)
    (fuel : Nat) : Option Nat :=
  if interval ≤ 0 then some 2
  else
    match runLoop src count fuel initPoll with
    | .done (.finished rc) _ => some rc
    | .done .readError _ => some 1
    | .done (.updateError _) _ => some 1
    | .fuelOut _ => none

/-- A snapshot the delta loop accepts: known keys, parseable counters. -/
abbrev SnapOK (snap : Snap) : Prop :=
  ∀ kv ∈ snap, kv.1 ∈ schemaNames ∧
    (kv.1 ≠ "snapshot_time" → (pyInt kv.2).isSome)

/-- A stat source whose every read succeeds with an acceptable snapshot. -/
def GoodSrc (src : Nat → Option Snap) : Prop :=
  ∀ i, ∃ snap, src i = some snap ∧ SnapOK snap

/-- `n` spaces. -/
def spL (n : Nat) : List Char := List.replicate n ' '

/-- Python format spec `{:<w}` on a string: left-justify, pad to width `w`
with spaces (no padding when already at least `w` characters wide). -/
def ljust (s : String) (w : Nat) : String :=
  String.mk (s.data ++ spL (w - s.data.length))

/-- Python format spec `{:>w}` on a string: right-justify in width `w`. -/
def rjust (s : String) (w : Nat) : String :=
  String.mk (spL (w - s.data.length) ++ s.data)

/-- Decimal digit character. -/
def digitChar : Nat → Char
  | 0 => '0' | 1 => '1' | 2 => '2' | 3 => '3' | 4 => '4'
  | 5 => '5' | 6 => '6' | 7 => '7' | 8 => '8' | _ => '9'

/-- Digits of a natural number, most significant first (fuel recursion). -/
def natCharsAux : Nat → Nat → List Char
  | 0, _ => []
  | fuel+1, n =>
      if n < 10 then [digitChar n]
      else natCharsAux fuel (n / 10) ++ [digitChar (n % 10)]

/-- Decimal digits of `n`. -/
def natChars (n : Nat) : List Char := natCharsAux (n + 1) n

/-- Python `str` of an int, as `format` and the csv writer apply it. -/
def intStr (n : Int) : String :=
  if n < 0 then String.mk ('-' :: natChars (-n).toNat)
  else String.mk (natChars n.toNat)

/-- Python `str` of a dynamic value, as the renderers apply it. -/
def pyStr : Val → String
  | Val.int n => intStr n
  | Val.str s => s

/-- One line of plain output: `"{0:<18} {1:<10}".format(key, value)`
(lines 109 and 130). -/
def plainLine (k v : String) : String := ljust k 18 ++ " " ++ ljust v 10

/-- `print_stats` in plain mode (lines 129-130): one line per counter in
dictionary order. -/
def printStatsPlain (d : St) : List String :=
  d.map (fun kv => plainLine kv.1 (pyStr kv.2))

/-- `print_header` in plain mode (line 109). -/
def printHeaderPlain : String := plainLine "Stat" "Value"

/-- The table format string of lines 105-107 / 125-127 applied to its 16
arguments.  The Python string literal continues over backslash-newline, so
the 12 leading spaces of each continuation line stay inside the string:
fields 6-7 and 13-14 are separated by 13 spaces, all other neighbours by
one space.  Field 0 is left-justified at width 18, fields 1-14
right-justified at width 8, field 15 right-justified at width 14. -/
def tableLine (xs : List String) : String :=
  ljust (xs.getD 0 "") 18 ++ " " ++ rjust (xs.getD 1 "") 8 ++ " " ++
  rjust (xs.getD 2 "") 8 ++ " " ++ rjust (xs.getD 3 "") 8 ++ " " ++
  rjust (xs.getD 4 "") 8 ++ " " ++ rjust (xs.getD 5 "") 8 ++ " " ++
  rjust (xs.getD 6 "") 8 ++ String.mk (spL 13) ++ rjust (xs.getD 7 "") 8 ++ " " ++
  rjust (xs.getD 8 "") 8 ++ " " ++ rjust (xs.getD 9 "") 8 ++ " " ++
  rjust (xs.getD 10 "") 8 ++ " " ++ rjust (xs.getD 11 "") 8 ++ " " ++
  rjust (xs.getD 12 "") 8 ++ " " ++ rjust (xs.getD 13 "") 8 ++ String.mk (spL 13) ++
  rjust (xs.getD 14 "") 8 ++ " " ++ rjust (xs.getD 15 "") 14

/-- `print_header` in table mode (lines 104-107): formats `data.keys()`. -/
def printHeaderTable (d : St) : String := tableLine (keysOf d)

/-- `print_stats` in table mode (lines 124-127): formats `data.values()`. -/
def printStatsTable (d : St) : String :=
  tableLine (d.map (fun kv => pyStr kv.2))

/-- Split a line into its maximal space-separated words (how a reader counts
table columns); `cur` holds the current word reversed. -/
def wordsGo : List Char → List Char → List (List Char)
  | [], cur => if cur.isEmpty then [] else [cur.reverse]
  | c :: cs, cur =>
      if c = ' ' then
        (if cur.isEmpty then wordsGo cs [] else cur.reverse :: wordsGo cs [])
      else wordsGo cs (c :: cur)

/-- The space-separated words of a string. -/
def words (s : String) : List String := (wordsGo s.data []).map String.mk

/-- The csv module's minimal quoting rule: a field is quoted iff it contains
the delimiter, the quote character or a line-terminator character. -/
def csvNeedsQuote (s : String) : Bool :=
  s.data.any (fun c => c = ',' ∨ c = '\"' ∨ c = '\x0d' ∨ c = '\n')

/-- Double every quote character inside a quoted field. -/
def csvEscape : List Char → List Char
  | [] => []
  | c :: cs => if c = '\"' then c :: c :: csvEscape cs else c :: csvEscape cs

/-- One CSV field as `csv.writer` emits it. -/
def csvField (s : String) : String :=
  if csvNeedsQuote s then String.mk ('\"' :: (csvEscape s.data ++ ['\"'])) else s

/-- Join character-list fields with comma separators. -/
def joinComma : List (List Char) → List Char
  | [] => []
  | [f] => f
  | f :: fs => f ++ ',' :: joinComma fs

/-- Python `str.rstrip()`: drop trailing whitespace. -/
def rstrip (s : String) : String :=
  String.mk ((s.data.reverse.dropWhile isPyWhite).reverse)

/-- `writer.writerow(fields)` into a buffer followed by
`print(output.getvalue().rstrip())` (lines 98-102 / 118-122): the encoded
fields joined by commas, the CRLF terminator then stripped. -/
def csvLine (fields : List String) : String :=
  rstrip (String.mk (joinComma ((fields.map csvField).map String.data) ++ ['\x0d', '\n']))

/-- `print_header` in CSV mode (lines 98-102): `writer.writerow(data.keys())`. -/
def printHeaderCsv (d : St) : String := csvLine (keysOf d)

/-- `print_stats` in CSV mode (lines 118-122):
`csv.DictWriter(output, fieldnames=data.keys()).writerow(data)` emits the
values in key order, `str`-converted. -/
def printStatsCsv (d : St) : String :=
  csvLine (d.map (fun kv => pyStr kv.2))

/-- RFC-4180-style parse of one CSV line into its fields (doubled quotes
inside a quoted field decode to one quote). -/
def csvParseGo : Bool → List Char → List Char → List String
  | _, [], cur => [String.mk cur.reverse]
  | true, '\"' :: '\"' :: cs, cur => csvParseGo true cs ('\"' :: cur)
  | true, '\"' :: cs, cur => csvParseGo false cs cur
  | true, c :: cs, cur => csvParseGo true cs (c :: cur)
  | false, c :: cs, cur =>
      if c = ',' then String.mk cur.reverse :: csvParseGo false cs []
      else if c = '\"' then csvParseGo true cs cur
      else csvParseGo false cs (c :: cur)
termination_by _ l _ => l.length
decreasing_by all_goals (simp_wf <;> omega)

/-- Parse a CSV line into its list of fields. -/
def csvParse (s : String) : List String := csvParseGo false s.data []

/-- Gap-word chain describing the shape of a rendered line: each pair
contributes its gap of spaces, then its word. -/
def glue : List (Nat × List Char) → List Char
  | [] => []
  | gw :: rest => spL gw.1 ++ gw.2 ++ glue rest

/-- Nonempty and space-free: renders as a single table column token. -/
abbrev wordlike (s : String) : Prop := s.data ≠ [] ∧ ' ' ∉ s.data

/-- No character of the string forces CSV quoting. -/
abbrev csvSafe (s : String) : Prop := csvNeedsQuote s = false

/-- Characters that are neither whitespace nor CSV-special: what can occur
in a value token the stat source produces (`read_stats` whitespace-splits
each line, so a token holds no whitespace). -/
def safeChar (c : Char) : Bool :=
  if isPyWhite c then false
  else if c = ',' then false
  else if c = '\"' then false
  else true

/-- A nonempty string of safe characters, like the tokens `read_stats`
produces for counter values. -/
abbrev tokenlike (s : String) : Prop :=
  s.data ≠ [] ∧ ∀ c ∈ s.data, safeChar c = true

theorem find?_odSet_self (m : St) (k : String) (v : Val) :
    find? (odSet m k v) k = some v := by
  induction m with
  | nil => simp [odSet, find?]
  | cons kv rest ih =>
      by_cases h : kv.1 = k
      · simp [odSet, h, find?]
      · simp [odSet, h, find?, ih]

theorem find?_odSet_ne (m : St) (k k' : String) (v : Val) (h : k' ≠ k) :
    find? (odSet m k v) k' = find? m k' := by
  induction m with
  | nil =>
      have : ¬ (k = k') := fun hh => h hh.symm
      simp [odSet, find?, this]
  | cons kv rest ih =>
      by_cases hh : kv.1 = k
      · have : ¬ (k = k') := fun he => h he.symm
        simp [odSet, hh, find?, this]
      · simp [odSet, hh, find?, ih]

theorem keysOf_odSet (m : St) (k : String) (v : Val) (h : k ∈ keysOf m) :
    keysOf (odSet m k v) = keysOf m := by
  induction m with
  | nil => simp [keysOf] at h
  | cons kv rest ih =>
      by_cases hh : kv.1 = k
      · simp [odSet, hh, keysOf]
      · have hk : k ∈ keysOf rest := by
          simp [keysOf] at h
          rcases h with h | h
          · exact absurd h.symm hh
          · simpa [keysOf] using h
        have hrec := ih hk
        simp [odSet, hh, keysOf] at hrec ⊢
        exact hrec

theorem mem_odSet (m : St) (k : String) (v : Val) (kv' : String × Val)
    (h : kv' ∈ odSet m k v) : kv' = (k, v) ∨ kv' ∈ m := by
  induction m with
  | nil => simp [odSet] at h; simp [h]
  | cons kv rest ih =>
      by_cases hh : kv.1 = k
      · simp [odSet, hh] at h
        rcases h with h | h
        · exact Or.inl h
        · exact Or.inr (List.mem_cons_of_mem _ h)
      · simp [odSet, hh] at h
        rcases h with h | h
        · exact Or.inr (by simp [h])
        · rcases ih h with h' | h'
          · exact Or.inl h'
          · exact Or.inr (List.mem_cons_of_mem _ h')

theorem mem_keysOf_of_find? (m : St) (k : String) (v : Val)
    (h : find? m k = some v) : k ∈ keysOf m := by
  induction m with
  | nil => simp [find?] at h
  | cons kv rest ih =>
      by_cases hh : kv.1 = k
      · simp [keysOf, hh.symm]
      · simp [find?, hh] at h
        simp [keysOf]
        exact Or.inr (by simpa [keysOf] using ih h)

theorem mem_of_find? (m : St) (k : String) (v : Val)
    (h : find? m k = some v) : (k, v) ∈ m := by
  induction m with
  | nil => simp [find?] at h
  | cons kv rest ih =>
      by_cases hh : kv.1 = k
      · simp [find?, hh] at h
        have : kv = (k, v) := by
          cases kv; simp at hh h ⊢; exact ⟨hh, h⟩
        simp [← this]
      · simp [find?, hh] at h
        exact List.mem_cons_of_mem _ (ih h)

theorem find?_of_mem_keys (m : St) (k : String) (h : k ∈ keysOf m) :
    ∃ v, find? m k = some v := by
  induction m with
  | nil => simp [keysOf] at h
  | cons kv rest ih =>
      by_cases hh : kv.1 = k
      · exact ⟨kv.2, by simp [find?, hh]⟩
      · have hk : k ∈ keysOf rest := by
          simp [keysOf] at h
          rcases h with h | h
          · exact absurd h.symm hh
          · simpa [keysOf] using h
        rcases ih hk with ⟨v, hv⟩
        exact ⟨v, by simp [find?, hh, hv]⟩

theorem updateStat_ts (prev deltas : St) (value : String) :
    updateStat prev deltas "snapshot_time" value =
      .ok (odSet prev "snapshot_time" (Val.str value),
           odSet deltas "snapshot_time" (Val.str value)) := by
  simp [updateStat]

theorem updateStat_int (prev deltas : St) (stat value : String) (n pv : Int)
    (hk : stat ≠ "snapshot_time") (hn : pyInt value = some n)
    (hf : find? prev stat = some (Val.int pv)) :
    updateStat prev deltas stat value =
      .ok (odSet prev stat (Val.int n), odSet deltas stat (Val.int (n - pv))) := by
  simp [updateStat, hk, hn, hf]

theorem updateStat_ok_cases (prev deltas p d : St) (stat value : String)
    (h : updateStat prev deltas stat value = .ok (p, d)) :
    (stat = "snapshot_time" ∧ p = odSet prev stat (Val.str value) ∧
      d = odSet deltas stat (Val.str value)) ∨
    (stat ≠ "snapshot_time" ∧ ∃ n pv, pyInt value = some n ∧
      find? prev stat = some (Val.int pv) ∧
      p = odSet prev stat (Val.int n) ∧ d = odSet deltas stat (Val.int (n - pv))) := by
  by_cases hk : stat = "snapshot_time"
  · subst hk
    rw [updateStat_ts] at h
    simp at h
    exact Or.inl ⟨rfl, h.1.symm, h.2.symm⟩
  · right
    refine ⟨hk, ?_⟩
    rcases hv : pyInt value with _ | n
    · simp [updateStat, hk, hv] at h
    rcases hf : find? prev stat with _ | w
    · simp [updateStat, hk, hv, hf] at h
    rcases w with n' | s
    · rw [updateStat_int prev deltas stat value n n' hk hv hf] at h
      simp at h
      exact ⟨n, n', rfl, rfl, h.1.symm, h.2.symm⟩
    · simp [updateStat, hk, hv, hf] at h

theorem updateStat_error_cases (prev deltas : St) (stat value : String)
    (e : UpdErr) (h : updateStat prev deltas stat value = .error e) :
    stat ≠ "snapshot_time" ∧
    ((pyInt value = none ∧ e = UpdErr.valueError value) ∨
     (∃ n, pyInt value = some n ∧ find? prev stat = none ∧
        e = UpdErr.keyError stat) ∨
     (∃ n s, pyInt value = some n ∧ find? prev stat = some (Val.str s) ∧
        e = UpdErr.typeError stat)) := by
  by_cases hk : stat = "snapshot_time"
  · subst hk; rw [updateStat_ts] at h; simp at h
  refine ⟨hk, ?_⟩
  rcases hv : pyInt value with _ | n
  · simp [updateStat, hk, hv] at h
    exact Or.inl ⟨rfl, h.symm⟩
  rcases hf : find? prev stat with _ | w
  · simp [updateStat, hk, hv, hf] at h
    exact Or.inr (Or.inl ⟨n, rfl, rfl, h.symm⟩)
  rcases w with n' | s
  · rw [updateStat_int prev deltas stat value n n' hk hv hf] at h
    simp at h
  · simp [updateStat, hk, hv, hf] at h
    exact Or.inr (Or.inr ⟨n, s, rfl, rfl, h.symm⟩)

theorem updateStat_frame (prev deltas p d : St) (stat value k : String)
    (h : updateStat prev deltas stat value = .ok (p, d)) (hk : k ≠ stat) :
    find? p k = find? prev k ∧ find? d k = find? deltas k := by
  rcases updateStat_ok_cases _ _ _ _ _ _ h with ⟨_, hpd, hdd⟩ |
      ⟨_, n, pv, _, _, hpd, hdd⟩ <;>
    subst hpd <;> subst hdd <;>
    exact ⟨find?_odSet_ne _ _ _ _ hk, find?_odSet_ne _ _ _ _ hk⟩

theorem updateStat_inv (prev deltas p d : St) (stat value : String)
    (h : updateStat prev deltas stat value = .ok (p, d))
    (hp : keysOf prev = schemaNames) (hd : keysOf deltas = schemaNames)
    (hnp : NonTsInt prev) (hnd : NonTsInt deltas) :
    keysOf p = schemaNames ∧ keysOf d = schemaNames ∧
    NonTsInt p ∧ NonTsInt d ∧ stat ∈ schemaNames := by
  have hts : ("snapshot_time" : String) ∈ schemaNames := by decide
  rcases updateStat_ok_cases _ _ _ _ _ _ h with ⟨hk, hpd, hdd⟩ |
      ⟨hk, n, pv, hn, hf, hpd, hdd⟩
  · subst hpd hdd hk
    have hkp : "snapshot_time" ∈ keysOf prev := by rw [hp]; exact hts
    have hkd : "snapshot_time" ∈ keysOf deltas := by rw [hd]; exact hts
    refine ⟨by rw [keysOf_odSet _ _ _ hkp, hp], by rw [keysOf_odSet _ _ _ hkd, hd],
      ?_, ?_, hts⟩
    · intro kv hm hne
      rcases mem_odSet _ _ _ _ hm with he | hm'
      · exact absurd (by rw [he]) hne
      · exact hnp kv hm' hne
    · intro kv hm hne
      rcases mem_odSet _ _ _ _ hm with he | hm'
      · exact absurd (by rw [he]) hne
      · exact hnd kv hm' hne
  · subst hpd hdd
    have hkp : stat ∈ keysOf prev := mem_keysOf_of_find? _ _ _ hf
    have hstat : stat ∈ schemaNames := by rw [← hp]; exact hkp
    have hkd : stat ∈ keysOf deltas := by rw [hd]; exact hstat
    refine ⟨by rw [keysOf_odSet _ _ _ hkp, hp], by rw [keysOf_odSet _ _ _ hkd, hd],
      ?_, ?_, hstat⟩
    · intro kv hm hne
      rcases mem_odSet _ _ _ _ hm with he | hm'
      · exact ⟨n, by rw [he]⟩
      · exact hnp kv hm' hne
    · intro kv hm hne
      rcases mem_odSet _ _ _ _ hm with he | hm'
      · exact ⟨n - pv, by rw [he]⟩
      · exact hnd kv hm' hne

theorem updateStat_strVals (P : String → Prop) (prev deltas p d : St)
    (stat value : String) (h : updateStat prev deltas stat value = .ok (p, d))
    (hval : P value) (hp : StrVals P prev) (hd : StrVals P deltas) :
    StrVals P p ∧ StrVals P d := by
  rcases updateStat_ok_cases _ _ _ _ _ _ h with ⟨_, hpd, hdd⟩ |
      ⟨_, n, pv, _, _, hpd, hdd⟩ <;> subst hpd <;> subst hdd
  · constructor <;> intro kv hm s hs
    · rcases mem_odSet _ _ _ _ hm with he | hm'
      · rw [he] at hs; simp at hs; rw [← hs]; exact hval
      · exact hp kv hm' s hs
    · rcases mem_odSet _ _ _ _ hm with he | hm'
      · rw [he] at hs; simp at hs; rw [← hs]; exact hval
      · exact hd kv hm' s hs
  · constructor <;> intro kv hm s hs
    · rcases mem_odSet _ _ _ _ hm with he | hm'
      · rw [he] at hs; simp at hs
      · exact hp kv hm' s hs
    · rcases mem_odSet _ _ _ _ hm with he | hm'
      · rw [he] at hs; simp at hs
      · exact hd kv hm' s hs

theorem updateLoop_frame (snap : Snap) (prev deltas p d : St) (k : String)
    (h : updateLoop prev deltas snap = .ok (p, d))
    (hk : k ∉ snap.map Prod.fst) :
    find? p k = find? prev k ∧ find? d k = find? deltas k := by
  induction snap generalizing prev deltas with
  | nil => simp [updateLoop] at h; exact ⟨by rw [h.1], by rw [h.2]⟩
  | cons kv rest ih =>
      rcases kv with ⟨stat, value⟩
      simp only [updateLoop] at h
      cases hs : updateStat prev deltas stat value with
      | error e => rw [hs] at h; cases h
      | ok pd =>
          rcases pd with ⟨p1, d1⟩
          rw [hs] at h
          have hk1 : k ∉ rest.map Prod.fst := by
            intro hc; exact hk (by simp [hc])
          have hne : k ≠ stat := by
            intro hc; exact hk (by simp [hc])
          have h1 := updateStat_frame _ _ _ _ _ _ _ hs hne
          have h2 := ih _ _ h hk1
          exact ⟨h2.1.trans h1.1, h2.2.trans h1.2⟩

theorem updateLoop_inv (snap : Snap) (prev deltas p d : St)
    (h : updateLoop prev deltas snap = .ok (p, d))
    (hp : keysOf prev = schemaNames) (hd : keysOf deltas = schemaNames)
    (hnp : NonTsInt prev) (hnd : NonTsInt deltas) :
    keysOf p = schemaNames ∧ keysOf d = schemaNames ∧
    NonTsInt p ∧ NonTsInt d ∧ ∀ kv ∈ snap, kv.1 ∈ schemaNames := by
  induction snap generalizing prev deltas with
  | nil =>
      simp [updateLoop] at h
      rw [← h.1, ← h.2]
      exact ⟨hp, hd, hnp, hnd, by simp⟩
  | cons kv rest ih =>
      rcases kv with ⟨stat, value⟩
      simp only [updateLoop] at h
      cases hs : updateStat prev deltas stat value with
      | error e => rw [hs] at h; cases h
      | ok pd =>
          rcases pd with ⟨p1, d1⟩
          rw [hs] at h
          have h1 := updateStat_inv _ _ _ _ _ _ hs hp hd hnp hnd
          have h2 := ih _ _ h h1.1 h1.2.1 h1.2.2.1 h1.2.2.2.1
          refine ⟨h2.1, h2.2.1, h2.2.2.1, h2.2.2.2.1, ?_⟩
          intro kv' hm
          rcases List.mem_cons.mp hm with he | hm'


          · rw [he]; exact h1.2.2.2.2
          · exact h2.2.2.2.2 kv' hm'

theorem updateLoop_strVals (P : String → Prop) (snap : Snap)
    (prev deltas p d : St) (h : updateLoop prev deltas snap = .ok (p, d))
    (hvals : ∀ kv ∈ snap, P kv.2) (hp : StrVals P prev) (hd : StrVals P deltas) :
    StrVals P p ∧ StrVals P d := by
  induction snap generalizing prev deltas with
  | nil =>
      simp [updateLoop] at h
      rw [← h.1, ← h.2]
      exact ⟨hp, hd⟩
  | cons kv rest ih =>
      rcases kv with ⟨stat, value⟩
      simp only [updateLoop] at h
      cases hs : updateStat prev deltas stat value with
      | error e => rw [hs] at h; cases h
      | ok pd =>
          rcases pd with ⟨p1, d1⟩
          rw [hs] at h
          have h1 := updateStat_strVals P _ _ _ _ _ _ hs
            (hvals (stat, value) (by simp)) hp hd
          exact ih _ _ h (fun kv' hm => hvals kv' (List.mem_cons_of_mem _ hm))
            h1.1 h1.2

theorem updateLoop_delta_mem (snap : Snap) (prev deltas p d : St)
    (k v : String) (h : updateLoop prev deltas snap = .ok (p, d))
    (hnd : (snap.map Prod.fst).Nodup) (hmem : (k, v) ∈ snap)
    (hk : k ≠ "snapshot_time") :
    ∃ n pv, pyInt v = some n ∧ find? prev k = some (Val.int pv) ∧
      find? d k = some (Val.int (n - pv)) ∧ find? p k = some (Val.int n) := by
  induction snap generalizing prev deltas with
  | nil => simp at hmem
  | cons kv rest ih =>
      rcases kv with ⟨stat, value⟩
      simp only [updateLoop] at h
      cases hs : updateStat prev deltas stat value with
      | error e => rw [hs] at h; cases h
      | ok pd =>
          rcases pd with ⟨p1, d1⟩
          rw [hs] at h
          rcases List.mem_cons.mp hmem with he | hm'
          · have hstat : stat = k := by cases he; rfl
            have hvalue : value = v := by cases he; rfl
            subst hstat hvalue
            rcases updateStat_ok_cases _ _ _ _ _ _ hs with ⟨hts, _, _⟩ |
                ⟨_, n, pv, hn, hf, hpd, hdd⟩
            · exact absurd hts hk
            · subst hpd hdd
              have hnotin : stat ∉ rest.map Prod.fst := by
                simp at hnd
                intro hc
                rcases List.mem_map.mp hc with ⟨x, hx, hx1⟩
                rcases x with ⟨a, b⟩
                cases hx1
                exact hnd.1 b hx
              have hfr := updateLoop_frame _ _ _ _ _ _ h hnotin
              refine ⟨n, pv, hn, hf, ?_, ?_⟩
              · rw [hfr.2, find?_odSet_self]
              · rw [hfr.1, find?_odSet_self]
          · have hne : k ≠ stat := by
              intro hc
              subst hc
              simp at hnd
              exact hnd.1 v hm'
            have h1 := updateStat_frame _ _ _ _ _ _ _ hs hne
            have h2 := ih _ _ h (by simp at hnd; exact hnd.2) hm'
            rcases h2 with ⟨n, pv, hn, hf, hd', hp'⟩
            exact ⟨n, pv, hn, h1.1 ▸ hf, hd', hp'⟩

theorem updateLoop_ts_mem (snap : Snap) (prev deltas p d : St) (v : String)
    (h : updateLoop prev deltas snap = .ok (p, d))
    (hnd : (snap.map Prod.fst).Nodup) (hmem : ("snapshot_time", v) ∈ snap) :
    find? d "snapshot_time" = some (Val.str v) ∧
    find? p "snapshot_time" = some (Val.str v) := by
  induction snap generalizing prev deltas with
  | nil => simp at hmem
  | cons kv rest ih =>
      rcases kv with ⟨stat, value⟩
      simp only [updateLoop] at h
      cases hs : updateStat prev deltas stat value with
      | error e => rw [hs] at h; cases h
      | ok pd =>
          rcases pd with ⟨p1, d1⟩
          rw [hs] at h
          rcases List.mem_cons.mp hmem with he | hm'
          · have hstat : stat = "snapshot_time" := by cases he; rfl
            have hvalue : value = v := by cases he; rfl
            subst hstat hvalue
            rcases updateStat_ok_cases _ _ _ _ _ _ hs with ⟨_, hpd, hdd⟩ |
                ⟨hts, _⟩
            · subst hpd hdd
              have hnotin : "snapshot_time" ∉ rest.map Prod.fst := by
                simp at hnd
                intro hc
                rcases List.mem_map.mp hc with ⟨x, hx, hx1⟩
                rcases x with ⟨a, b⟩
                cases hx1
                exact hnd.1 b hx
              have hfr := updateLoop_frame _ _ _ _ _ _ h hnotin
              exact ⟨by rw [hfr.2, find?_odSet_self], by rw [hfr.1, find?_odSet_self]⟩
            · exact absurd rfl hts
          · exact ih _ _ h (by simp at hnd; exact hnd.2) hm'

theorem updateStat_prev_inv (prev deltas p d : St) (stat value : String)
    (h : updateStat prev deltas stat value = .ok (p, d))
    (hp : keysOf prev = schemaNames) (hnp : NonTsInt prev) :
    keysOf p = schemaNames ∧ NonTsInt p := by
  rcases updateStat_ok_cases _ _ _ _ _ _ h with ⟨hk, hpd, _⟩ |
      ⟨hk, n, pv, hn, hf, hpd, _⟩
  · subst hpd hk
    have hkp : "snapshot_time" ∈ keysOf prev := by rw [hp]; decide
    refine ⟨by rw [keysOf_odSet _ _ _ hkp, hp], ?_⟩
    intro kv hm hne
    rcases mem_odSet _ _ _ _ hm with he | hm'
    · exact absurd (by rw [he]) hne
    · exact hnp kv hm' hne
  · subst hpd
    have hkp : stat ∈ keysOf prev := mem_keysOf_of_find? _ _ _ hf
    refine ⟨by rw [keysOf_odSet _ _ _ hkp, hp], ?_⟩
    intro kv hm hne
    rcases mem_odSet _ _ _ _ hm with he | hm'
    · exact ⟨n, by rw [he]⟩
    · exact hnp kv hm' hne

theorem updateLoop_total (snap : Snap) (prev deltas : St)
    (hp : keysOf prev = schemaNames) (hnp : NonTsInt prev)
    (hsnap : ∀ kv ∈ snap, kv.1 ∈ schemaNames ∧
      (kv.1 ≠ "snapshot_time" → (pyInt kv.2).isSome)) :
    ∃ p d, updateLoop prev deltas snap = .ok (p, d) := by
  induction snap generalizing prev deltas with
  | nil => exact ⟨prev, deltas, rfl⟩
  | cons kv rest ih =>
      rcases kv with ⟨stat, value⟩
      have hhead := hsnap (stat, value) (by simp)
      have hrest : ∀ kv ∈ rest, kv.1 ∈ schemaNames ∧
          (kv.1 ≠ "snapshot_time" → (pyInt kv.2).isSome) :=
        fun kv hm => hsnap kv (List.mem_cons_of_mem _ hm)
      by_cases hts : stat = "snapshot_time"
      · subst hts
        have hstep := updateStat_ts prev deltas value
        have hpi := updateStat_prev_inv _ _ _ _ _ _ hstep hp hnp
        rcases ih _ (odSet deltas "snapshot_time" (Val.str value))
          hpi.1 hpi.2 hrest with ⟨p, d, hrun⟩
        refine ⟨p, d, ?_⟩
        simp only [updateLoop]
        rw [hstep]
        exact hrun
      · rcases Option.isSome_iff_exists.mp (hhead.2 hts) with ⟨n, hn⟩
        have hkmem : stat ∈ keysOf prev := by rw [hp]; exact hhead.1
        rcases find?_of_mem_keys _ _ hkmem with ⟨w, hf⟩
        rcases hnp (stat, w) (mem_of_find? _ _ _ hf) hts with ⟨pv, hw⟩
        have hw' : w = Val.int pv := hw
        subst hw'
        have hstep := updateStat_int prev deltas stat value n pv hts hn hf
        have hpi := updateStat_prev_inv _ _ _ _ _ _ hstep hp hnp
        rcases ih _ (odSet deltas stat (Val.int (n - pv)))
          hpi.1 hpi.2 hrest with ⟨p, d, hrun⟩
        refine ⟨p, d, ?_⟩
        simp only [updateLoop]
        rw [hstep]
        exact hrun

theorem updateLoop_error (snap : Snap) (prev deltas : St) (e : UpdErr)
    (hp : keysOf prev = schemaNames) (hnp : NonTsInt prev)
    (hkeys : ∀ kv ∈ snap, kv.1 ∈ schemaNames)
    (h : updateLoop prev deltas snap = .error e) :
    ∃ kv, kv ∈ snap ∧ kv.1 ≠ "snapshot_time" ∧ pyInt kv.2 = none ∧
      e = UpdErr.valueError kv.2 := by
  induction snap generalizing prev deltas with
  | nil => cases h
  | cons kv rest ih =>
      rcases kv with ⟨stat, value⟩
      simp only [updateLoop] at h
      cases hs : updateStat prev deltas stat value with
      | error e' =>
          rw [hs] at h
          cases h
          rcases updateStat_error_cases _ _ _ _ _ hs with ⟨hts, hc⟩
          rcases hc with ⟨hn, he⟩ | ⟨n, hn, hf, _⟩ | ⟨n, s, hn, hf, _⟩
          · exact ⟨(stat, value), by simp, hts, hn, he⟩
          · have hkmem : stat ∈ keysOf prev := by
              rw [hp]; exact hkeys (stat, value) (by simp)
            rcases find?_of_mem_keys _ _ hkmem with ⟨w, hw⟩
            rw [hw] at hf; cases hf
          · rcases hnp (stat, Val.str s) (mem_of_find? _ _ _ hf) hts with ⟨n', hn'⟩
            cases hn'
      | ok pd =>
          rcases pd with ⟨p1, d1⟩
          rw [hs] at h
          have hpi := updateStat_prev_inv _ _ _ _ _ _ hs hp hnp
          rcases ih _ d1 hpi.1 hpi.2
            (fun kv hm => hkeys kv (List.mem_cons_of_mem _ hm)) h with
            ⟨kv', hm', hts', hn', he'⟩
          exact ⟨kv', List.mem_cons_of_mem _ hm', hts', hn', he'⟩

theorem updateLoop_prev_inv (snap : Snap) (prev deltas p d : St)
    (h : updateLoop prev deltas snap = .ok (p, d))
    (hp : keysOf prev = schemaNames) (hnp : NonTsInt prev) :
    keysOf p = schemaNames ∧ NonTsInt p := by
  induction snap generalizing prev deltas with
  | nil =>
      simp [updateLoop] at h
      rw [← h.1]
      exact ⟨hp, hnp⟩
  | cons kv rest ih =>
      rcases kv with ⟨stat, value⟩
      simp only [updateLoop] at h
      cases hs : updateStat prev deltas stat value with
      | error e => rw [hs] at h; cases h
      | ok pd =>
          rcases pd with ⟨p1, d1⟩
          rw [hs] at h
          have h1 := updateStat_prev_inv _ _ _ _ _ _ hs hp hnp
          exact ih _ _ h h1.1 h1.2

theorem keysOf_initState : keysOf initState = schemaNames := by rfl

theorem nonTsInt_initState : NonTsInt initState := by
  intro kv hm _
  rcases List.mem_map.mp hm with ⟨a, _, ha⟩
  exact ⟨0, by rw [← ha]⟩

theorem strVals_initState (P : String → Prop) : StrVals P initState := by
  intro kv hm s hs
  rcases List.mem_map.mp hm with ⟨a, _, ha⟩
  rw [← ha] at hs
  cases hs

theorem runLoop_bounded (src : Nat → Option Snap) (N : Nat)
    (hsrc : GoodSrc src) (fuel : Nat) (st : PollState) (hN : 0 < N)
    (hp : keysOf st.prev = schemaNames) (hnp : NonTsInt st.prev)
    (hcl : st.currentLoop ≤ N + 1)
    (hfuel : N + 2 - st.currentLoop ≤ fuel) :
    ∃ stf, runLoop src (N : Int) fuel st = .done (.finished EXIT_ERROR) stf ∧
      stf.rendered.length = st.rendered.length + (N + 1 - st.currentLoop) ∧
      stf.samples = st.samples + (N + 2 - st.currentLoop) := by
  induction fuel generalizing st with
  | zero => omega
  | succ fuel ih =>
      rcases hsrc st.samples with ⟨snap, hread, hok⟩
      rcases updateLoop_total snap st.prev st.deltas hp hnp hok with ⟨p, d, hupd⟩
      have hpos : (0 : Int) < (N : Int) := by exact_mod_cast hN
      by_cases hbr : st.currentLoop = N + 1
      · have hgt : (N : Int) < (st.currentLoop : Int) := by
          rw [hbr]; exact_mod_cast by omega
        refine ⟨{ st with samples := st.samples + 1, prev := p, deltas := d },
          ?_, by simp; omega, by simp; omega⟩
        simp only [runLoop, hread, hupd]
        rw [if_pos hpos, if_pos hgt]
      · have hnbr : ¬ ((N : Int) < (st.currentLoop : Int)) := by
          have : st.currentLoop ≤ N := by omega
          exact_mod_cast by omega
        have hinv := updateLoop_prev_inv snap st.prev st.deltas p d hupd hp hnp
        rcases ih { st with samples := st.samples + 1, prev := p, deltas := d, currentLoop := st.currentLoop + 1, rendered := st.rendered ++ [d] } hinv.1 hinv.2 (by simp; omega) (by simp; omega) with ⟨stf, hrun, hlen, hsam⟩
        refine ⟨stf, ?_, by simp at hlen; omega, by simp at hsam; omega⟩
        simp only [runLoop, hread, hupd]
        rw [if_pos hpos, if_neg hnbr]
        exact hrun

example : pyInt " 42 " = some 42 := by decide
example : pyInt "-7" = some (-7) := by decide
example : pyInt "12.5" = none := by decide
example : pyInt "" = none := by decide
example : find? initState "open" = some (Val.int 0) := by decide
example :
    updateLoop initState initState [("open", "5"), ("snapshot_time", "99.5")]
      = .ok (odSet (odSet initState "open" (Val.int 5)) "snapshot_time" (Val.str "99.5"),
             odSet (odSet initState "open" (Val.int 5)) "snapshot_time" (Val.str "99.5")) := rfl
example : updateLoop initState initState [("bogus", "7")]
    = .error (UpdErr.keyError "bogus") := rfl

theorem find?_initState_eq (c : String) (w : Val)
    (h : find? initState c = some w) : w = Val.int 0 := by
  have hm := mem_of_find? _ _ _ h
  rcases List.mem_map.mp hm with ⟨a, _, ha⟩
  cases ha
  rfl

theorem runUpdates_inv (snaps : List Snap) (prev deltas p d : St)
    (h : runUpdates snaps prev deltas = .ok (p, d))
    (hp : keysOf prev = schemaNames) (hd : keysOf deltas = schemaNames)
    (hnp : NonTsInt prev) (hnd : NonTsInt deltas) :
    keysOf p = schemaNames ∧ keysOf d = schemaNames ∧ NonTsInt p ∧ NonTsInt d := by
  induction snaps generalizing prev deltas with
  | nil =>
      simp [runUpdates] at h
      rw [← h.1, ← h.2]
      exact ⟨hp, hd, hnp, hnd⟩
  | cons s rest ih =>
      simp only [runUpdates] at h
      cases hs : updateLoop prev deltas s with
      | error e => rw [hs] at h; cases h
      | ok pd =>
          rcases pd with ⟨p1, d1⟩
          rw [hs] at h
          have h1 := updateLoop_inv s prev deltas p1 d1 hs hp hd hnp hnd
          exact ih _ _ h h1.1 h1.2.1 h1.2.2.1 h1.2.2.2.1

/-- C1: across two successive update calls with snapshots S1 then S2, every
ordinary counter `c` present in both yields delta `int(S2[c]) - int(S1[c])`
in the second DeltaRecord; the timestamp entry gets S2's raw value verbatim
in both DeltaRecord and PreviousState when present in S2, and the
DeltaRecord keeps the previously recorded value when it is absent. -/
theorem mdstats_c1_two_update_deltas (p0 d0 p1 d1 p2 d2 : St) (S1 S2 : Snap)
    (h1 : updateLoop p0 d0 S1 = .ok (p1, d1))
    (h2 : updateLoop p1 d1 S2 = .ok (p2, d2))
    (hnd1 : (S1.map Prod.fst).Nodup) (hnd2 : (S2.map Prod.fst).Nodup) :
    (∀ c v1 v2 n1 n2, c ≠ "snapshot_time" → (c, v1) ∈ S1 → (c, v2) ∈ S2 →
       pyInt v1 = some n1 → pyInt v2 = some n2 →
       find? d2 c = some (Val.int (n2 - n1))) ∧
    (∀ v, ("snapshot_time", v) ∈ S2 →
       find? d2 "snapshot_time" = some (Val.str v) ∧
       find? p2 "snapshot_time" = some (Val.str v)) ∧
    ("snapshot_time" ∉ S2.map Prod.fst →
       find? d2 "snapshot_time" = find? d1 "snapshot_time") := by
  refine ⟨?_, ?_, ?_⟩
  · intro c v1 v2 n1 n2 hc hm1 hm2 hn1 hn2
    rcases updateLoop_delta_mem S1 p0 d0 p1 d1 c v1 h1 hnd1 hm1 hc with
      ⟨m1, pv0, hm1', _, _, hp1⟩
    have hm1e : m1 = n1 := Option.some_inj.mp (hm1'.symm.trans hn1)
    subst hm1e
    rcases updateLoop_delta_mem S2 p1 d1 p2 d2 c v2 h2 hnd2 hm2 hc with
      ⟨m2, pv1, hm2', hf1, hd2, _⟩
    have hm2e : m2 = n2 := Option.some_inj.mp (hm2'.symm.trans hn2)
    subst hm2e
    have hpv : pv1 = m1 := by
      have := Option.some_inj.mp (hf1.symm.trans hp1)
      exact (Val.int.inj this.symm).symm
    subst hpv
    exact hd2
  · intro v hm
    exact updateLoop_ts_mem S2 p1 d1 p2 d2 v h2 hnd2 hm
  · intro habs
    exact (updateLoop_frame S2 p1 d1 p2 d2 "snapshot_time" h2 habs).2

theorem mdstats_c1_witness :
    ∃ p1 d1 p2 d2,
      updateLoop initState initState
        [("open", "5"), ("snapshot_time", "100.1")] = .ok (p1, d1) ∧
      updateLoop p1 d1 [("open", "12"), ("snapshot_time", "200.2")] = .ok (p2, d2) ∧
      find? d2 "open" = some (Val.int 7) ∧
      find? d2 "snapshot_time" = some (Val.str "200.2") ∧
      find? p2 "snapshot_time" = some (Val.str "200.2") := by
  refine ⟨_, _, _, _, rfl, rfl, ?_, ?_, ?_⟩
  · have H := mdstats_c1_two_update_deltas initState initState _ _ _ _
      [("open", "5"), ("snapshot_time", "100.1")]
      [("open", "12"), ("snapshot_time", "200.2")]
      rfl rfl (by decide) (by decide)
    have := H.1 "open" "5" "12" 5 12 (by decide) (by decide) (by decide)
      (by decide) (by decide)
    simpa using this
  · have H := mdstats_c1_two_update_deltas initState initState _ _ _ _
      [("open", "5"), ("snapshot_time", "100.1")]
      [("open", "12"), ("snapshot_time", "200.2")]
      rfl rfl (by decide) (by decide)
    exact (H.2.1 "200.2" (by decide)).1
  · have H := mdstats_c1_two_update_deltas initState initState _ _ _ _
      [("open", "5"), ("snapshot_time", "100.1")]
      [("open", "12"), ("snapshot_time", "200.2")]
      rfl rfl (by decide) (by decide)
    exact (H.2.1 "200.2" (by decide)).2

/-- C5: the first update on a freshly initialised engine yields, for every
ordinary counter present in the snapshot, a delta equal to the parsed
snapshot value itself (the difference against the zero initial state),
unclamped. -/
theorem mdstats_c5_first_update_absolute (S : Snap) (p d : St)
    (c v : String) (n : Int)
    (h : updateLoop initState initState S = .ok (p, d))
    (hnd : (S.map Prod.fst).Nodup) (hc : c ≠ "snapshot_time")
    (hm : (c, v) ∈ S) (hn : pyInt v = some n) :
    find? d c = some (Val.int n) := by
  rcases updateLoop_delta_mem S initState initState p d c v h hnd hm hc with
    ⟨m, pv, hm', hf, hd, _⟩
  have hme : m = n := Option.some_inj.mp (hm'.symm.trans hn)
  subst hme
  have hpv : pv = 0 := Val.int.inj (find?_initState_eq c _ hf)
  subst hpv
  simpa using hd

theorem mdstats_c5_witness :
    ∃ p d, updateLoop initState initState [("open", "41")] = .ok (p, d) ∧
      find? d "open" = some (Val.int 41) := by
  refine ⟨_, _, rfl, ?_⟩
  have := mdstats_c5_first_update_absolute [("open", "41")] _ _ "open" "41" 41
    rfl (by decide) (by decide) (by decide) (by decide)
  simpa using this

/-- C6: an update call whose snapshot lacks `statfs` entirely does not
raise; the DeltaRecord entry for `statfs` is carried over unchanged from
the previous record, and the PreviousState entry for `statfs` is left
unchanged by the call. -/
theorem mdstats_c6_missing_statfs (S : Snap) (prev deltas : St)
    (hp : keysOf prev = schemaNames) (hnp : NonTsInt prev)
    (hok : SnapOK S) (habs : "statfs" ∉ S.map Prod.fst) :
    ∃ p d, updateLoop prev deltas S = .ok (p, d) ∧
      find? d "statfs" = find? deltas "statfs" ∧
      find? p "statfs" = find? prev "statfs" := by
  rcases updateLoop_total S prev deltas hp hnp hok with ⟨p, d, h⟩
  have hf := updateLoop_frame S prev deltas p d "statfs" h habs
  exact ⟨p, d, h, hf.2, hf.1⟩

theorem mdstats_c6_witness :
    ∃ p d, updateLoop initState initState [("open", "3")] = .ok (p, d) ∧
      find? d "statfs" = find? initState "statfs" ∧
      find? p "statfs" = find? initState "statfs" :=
  mdstats_c6_missing_statfs [("open", "3")] initState initState
    keysOf_initState nonTsInt_initState
    (by intro kv hm; simp at hm; subst hm; exact ⟨by decide, fun _ => by decide⟩)
    (by decide)

/-- C9: a snapshot holding a key outside the 16 schema names (with a value
that parses fine) makes the delta loop raise a KeyError on the
previous-state lookup, and the iteration dies before any rendering. -/
theorem mdstats_c9_unknown_key_raises :
    ("extra_stat" ∉ schemaNames) ∧
    pyInt "5" = some 5 ∧
    updateLoop initState initState [("extra_stat", "5")] =
      .error (UpdErr.keyError "extra_stat") ∧
    runLoop (fun _ => some [("extra_stat", "5")]) 0 5 initPoll =
      .done (.updateError (UpdErr.keyError "extra_stat"))
        { initPoll with samples := 1 } ∧
    ({ initPoll with samples := 1 } : PollState).rendered = [] :=
  ⟨by decide, by decide, rfl, rfl, rfl⟩

/-- C10: after initialisation and after every successful sequence of
updates whose snapshots hold only schema keys, both dictionaries hold
exactly the 16 schema names, in schema order, with `snapshot_time` first
and `samedir_rename` last. -/
theorem mdstats_c10_keys_invariant (snaps : List Snap) (p d : St)
    (hkeys : ∀ s ∈ snaps, ∀ kv ∈ s, kv.1 ∈ schemaNames)
    (h : runUpdates snaps initState initState = .ok (p, d)) :
    keysOf initState = schemaNames ∧ keysOf p = schemaNames ∧
    keysOf d = schemaNames ∧ schemaNames.length = 16 ∧
    schemaNames.head? = some "snapshot_time" ∧
    schemaNames.getLast? = some "samedir_rename" := by
  have hinv := runUpdates_inv snaps initState initState p d h
    keysOf_initState keysOf_initState nonTsInt_initState nonTsInt_initState
  exact ⟨keysOf_initState, hinv.1, hinv.2.1, by decide, by decide, by decide⟩

theorem mdstats_c10_witness :
    ∃ p d, runUpdates [[("open", "2")], [("open", "4"), ("mkdir", "1")]]
        initState initState = .ok (p, d) ∧
      (keysOf initState = schemaNames ∧ keysOf p = schemaNames ∧
       keysOf d = schemaNames ∧ schemaNames.length = 16 ∧
       schemaNames.head? = some "snapshot_time" ∧
       schemaNames.getLast? = some "samedir_rename") := by
  refine ⟨_, _, rfl, ?_⟩
  exact mdstats_c10_keys_invariant
    [[("open", "2")], [("open", "4"), ("mkdir", "1")]] _ _ (by decide) rfl

/-- C4 (amended): for snapshots whose keys are all schema names, the delta
loop fails exactly when some non-timestamp value does not parse as an
integer (Python ValueError standing for MalformedCounterError), it does
not raise when all non-timestamp values parse, and a failing update makes
the loop die with the error before that iteration renders anything; a
snapshot holding a non-schema key can instead raise a KeyError even though
every value parses (see the counterexample). -/
theorem mdstats_c4_update_failure_modes (snap : Snap) (prev deltas : St)
    (src : Nat → Option Snap) (maxLoop : Int) (fuel : Nat) (st : PollState)
    (e : UpdErr) (hp : keysOf prev = schemaNames) (hnp : NonTsInt prev)
    (hkeys : ∀ kv ∈ snap, kv.1 ∈ schemaNames) :
    ((∀ kv ∈ snap, kv.1 ≠ "snapshot_time" → (pyInt kv.2).isSome) →
       ∃ p d, updateLoop prev deltas snap = .ok (p, d)) ∧
    (updateLoop prev deltas snap = .error e →
       ∃ kv, kv ∈ snap ∧ kv.1 ≠ "snapshot_time" ∧ pyInt kv.2 = none ∧
         e = UpdErr.valueError kv.2) ∧
    (src st.samples = some snap → updateLoop st.prev st.deltas snap = .error e →
       runLoop src maxLoop (fuel + 1) st =
         .done (.updateError e) { st with samples := st.samples + 1 } ∧
       ({ st with samples := st.samples + 1 } : PollState).rendered =
         st.rendered) := by
  refine ⟨?_, ?_, ?_⟩
  · intro hparse
    exact updateLoop_total snap prev deltas hp hnp
      (fun kv hm => ⟨hkeys kv hm, hparse kv hm⟩)
  · intro he
    exact updateLoop_error snap prev deltas e hp hnp hkeys he
  · intro hsrc hupd
    constructor
    · simp only [runLoop, hsrc, hupd]
    · rfl

/-- C4 counterexample: every value of this snapshot parses as an integer,
yet the update raises (a KeyError on the unknown key), refuting the claim
that update can fail only on a non-integer-parseable value. -/
theorem mdstats_c4_counterexample :
    pyInt "7" = some 7 ∧
    updateLoop initState initState [("extra_counter", "7")] =
      .error (UpdErr.keyError "extra_counter") :=
  ⟨by decide, rfl⟩

theorem mdstats_c4_witness :
    (∃ p d, updateLoop initState initState [("open", "2")] = .ok (p, d)) ∧
    (runLoop (fun _ => some [("open", "x")]) 0 3 initPoll =
       .done (.updateError (UpdErr.valueError "x"))
         { initPoll with samples := 1 } ∧
     ({ initPoll with samples := 1 } : PollState).rendered =
       initPoll.rendered) := by
  constructor
  · have H := mdstats_c4_update_failure_modes [("open", "2")] initState
      initState (fun _ => some [("open", "2")]) 0 2 initPoll
      (UpdErr.valueError "x") keysOf_initState nonTsInt_initState (by decide)
    exact H.1 (by decide)
  · have H := mdstats_c4_update_failure_modes [("open", "x")] initState
      initState (fun _ => some [("open", "x")]) 0 2 initPoll
      (UpdErr.valueError "x") keysOf_initState nonTsInt_initState (by decide)
    exact H.2.2 rfl rfl

/-- C2 (amended): with a finite configured count N>0 and a well-formed
source, the loop renders exactly N rows and then terminates via the break,
the bound check happening before rendering and sleeping; the check runs
only after sampling, however, so N+1 samples are read in total (the claim
that no (N+1)-th sample is taken fails, see the counterexample). -/
theorem mdstats_c2_bounded_iterations (src : Nat → Option Snap)
    (N fuel : Nat) (hN : 0 < N) (hsrc : GoodSrc src) (hfuel : N + 1 ≤ fuel) :
    ∃ stf, runLoop src (N : Int) fuel initPoll =
      .done (.finished EXIT_ERROR) stf ∧
      stf.rendered.length = N ∧ stf.samples = N + 1 := by
  rcases runLoop_bounded src N hsrc fuel initPoll hN keysOf_initState
    nonTsInt_initState (by simp [initPoll]) (by simp [initPoll]; omega) with
    ⟨stf, hr1, hr2, hr3⟩
  refine ⟨stf, hr1, ?_, ?_⟩
  · simpa [initPoll] using hr2
  · simpa [initPoll] using hr3

/-- C2 counterexample: with count = 3 the loop renders exactly 3 rows and
finishes, but 4 samples are read from the source, refuting "no (N+1)-th
sample taken from the stat source". -/
theorem mdstats_c2_counterexample :
    resOutcome (runLoop (fun _ => some [("open", "5")]) 3 10 initPoll) =
      some (PollOutcome.finished EXIT_ERROR) ∧
    (resState (runLoop (fun _ => some [("open", "5")]) 3 10 initPoll)).rendered.length = 3 ∧
    (resState (runLoop (fun _ => some [("open", "5")]) 3 10 initPoll)).samples = 4 :=
  ⟨rfl, rfl, rfl⟩

theorem mdstats_c2_witness :
    ∃ stf, runLoop (fun _ => some [("open", "5")]) ((2 : Nat) : Int) 9 initPoll =
      .done (.finished EXIT_ERROR) stf ∧
      stf.rendered.length = 2 ∧ stf.samples = 3 :=
  mdstats_c2_bounded_iterations (fun _ => some [("open", "5")]) 2 9
    (by decide)
    (fun _ => ⟨[("open", "5")], rfl,
      by intro kv hm; simp at hm; subst hm; exact ⟨by decide, fun _ => by decide⟩⟩)
    (by decide)

/-- C3: the claimed exit codes diverge from the code: normal completion
after a finite iteration count exits with `EXIT_ERROR` (1), because `rc`
is set to `EXIT_ERROR` on line 139 and never reassigned before `return rc`;
a non-positive interval exits through optparse `parser.error` with status
2 rather than 1; an unreadable source (uncaught IOError) does exit 1 and a
clean interrupt does exit 0. -/
theorem mdstats_c3_exit_codes :
    mainExitCode 1 1 (fun _ => some [("open", "5")]) 10 = some EXIT_ERROR ∧
    mainExitCode 1 1 (fun _ => none) 10 = some 1 ∧
    mainExitCode 0 5 (fun _ => some [("open", "5")]) 10 = some 2 ∧
    signalHandlerExit = EXIT_OK :=
  ⟨rfl, rfl, rfl, rfl⟩

theorem data_mk (l : List Char) : (String.mk l).data = l := rfl

theorem data_append (a b : String) : (a ++ b).data = a.data ++ b.data := rfl

theorem safeChar_digitChar (n : Nat) : safeChar (digitChar n) = true := by
  rcases n with _|_|_|_|_|_|_|_|_|n
  · decide
  · decide
  · decide
  · decide
  · decide
  · decide
  · decide
  · decide
  · decide
  · show safeChar '9' = true
    decide

theorem natCharsAux_safe (fuel : Nat) : ∀ (n : Nat), ∀ c ∈ natCharsAux fuel n,
    safeChar c = true := by
  induction fuel with
  | zero => intro n c hc; simp [natCharsAux] at hc
  | succ fuel ih =>
      intro n c hc
      by_cases h : n < 10
      · simp [natCharsAux, h] at hc
        rw [hc]; exact safeChar_digitChar n
      · simp [natCharsAux, h] at hc
        rcases hc with hc | hc
        · exact ih (n / 10) c hc
        · rw [hc]; exact safeChar_digitChar (n % 10)

theorem natCharsAux_ne_nil (fuel n : Nat) : natCharsAux (fuel + 1) n ≠ [] := by
  by_cases h : n < 10 <;> simp [natCharsAux, h]

theorem intStr_tokenlike (n : Int) : tokenlike (intStr n) := by
  unfold tokenlike intStr
  by_cases h : n < 0
  · rw [if_pos h]
    refine ⟨by simp [data_mk], ?_⟩
    intro c hc
    rw [data_mk] at hc
    rcases List.mem_cons.mp hc with hc | hc
    · rw [hc]; decide
    · exact natCharsAux_safe _ _ c hc
  · rw [if_neg h]
    refine ⟨?_, ?_⟩
    · rw [data_mk]
      exact natCharsAux_ne_nil _ _
    · intro c hc
      rw [data_mk] at hc
      exact natCharsAux_safe _ _ c hc

theorem tokenlike_wordlike (s : String) (h : tokenlike s) : wordlike s := by
  refine ⟨h.1, ?_⟩
  intro hm
  exact absurd (h.2 ' ' hm) (by decide)

theorem tokenlike_csvSafe (s : String) (h : tokenlike s) : csvSafe s := by
  unfold csvSafe
  cases hq : csvNeedsQuote s
  · rfl
  · exfalso
    unfold csvNeedsQuote at hq
    rcases List.any_eq_true.mp hq with ⟨c, hm, hc⟩
    have hs := h.2 c hm
    simp at hc
    rcases hc with hc | hc | hc | hc <;> subst hc <;>
      simp [safeChar, isPyWhite] at hs

theorem tokenlike_last_not_white (s : String) (h : tokenlike s) :
    ∃ c, s.data.reverse.head? = some c ∧ isPyWhite c = false := by
  rcases hr : s.data.reverse with _ | ⟨c, t⟩
  · exfalso
    apply h.1
    have := congrArg List.reverse hr
    simpa using this
  · refine ⟨c, by simp [hr], ?_⟩
    have hm : c ∈ s.data := by
      have hmem : c ∈ s.data.reverse := by rw [hr]; simp
      simpa using hmem
    have hs := h.2 c hm
    by_cases hw : isPyWhite c
    · rw [safeChar, if_pos hw] at hs
      cases hs
    · simpa using hw

theorem runUpdates_strVals (P : String → Prop) (snaps : List Snap)
    (prev deltas p d : St) (h : runUpdates snaps prev deltas = .ok (p, d))
    (hvals : ∀ s ∈ snaps, ∀ kv ∈ s, P kv.2)
    (hp : StrVals P prev) (hd : StrVals P deltas) :
    StrVals P p ∧ StrVals P d := by
  induction snaps generalizing prev deltas with
  | nil =>
      simp [runUpdates] at h
      rw [← h.1, ← h.2]
      exact ⟨hp, hd⟩
  | cons s rest ih =>
      simp only [runUpdates] at h
      cases hs : updateLoop prev deltas s with
      | error e => rw [hs] at h; cases h
      | ok pd =>
          rcases pd with ⟨p1, d1⟩
          rw [hs] at h
          have h1 := updateLoop_strVals P s prev deltas p1 d1 hs
            (hvals s (by simp)) hp hd
          exact ih _ _ h (fun s' hm => hvals s' (List.mem_cons_of_mem _ hm))
            h1.1 h1.2

theorem pyStr_tokenlike (d : St) (hs : StrVals tokenlike d) :
    ∀ kv ∈ d, tokenlike (pyStr kv.2) := by
  intro kv hm
  cases hv : kv.2 with
  | int n => exact intStr_tokenlike n
  | str s => exact hs kv hm s hv

theorem wordsGo_append_word (w : List Char) (hw : ' ' ∉ w) :
    ∀ (rest cur : List Char),
      wordsGo (w ++ rest) cur = wordsGo rest (w.reverse ++ cur) := by
  induction w with
  | nil => intro rest cur; simp
  | cons c cs ih =>
      intro rest cur
      have hc : ¬ (c = ' ') := fun h => hw (by simp [h])
      have hcs : ' ' ∉ cs := fun h => hw (List.mem_cons_of_mem _ h)
      simp only [List.cons_append, wordsGo, if_neg hc]
      rw [List.append_eq, ih hcs rest (c :: cur)]
      simp

theorem wordsGo_cons_space (X cur : List Char) :
    wordsGo (' ' :: X) cur =
      if cur.isEmpty then wordsGo X [] else cur.reverse :: wordsGo X [] := by
  by_cases h : cur.isEmpty <;> simp [wordsGo, h]

theorem wordsGo_spaces (k : Nat) : ∀ (rest cur : List Char),
    wordsGo (spL (k+1) ++ rest) cur =
      (if cur.isEmpty then [] else [cur.reverse]) ++ wordsGo rest [] := by
  induction k with
  | zero =>
      intro rest cur
      rw [show spL 1 ++ rest = ' ' :: rest from rfl, wordsGo_cons_space]
      by_cases h : cur.isEmpty <;> simp [h]
  | succ k ih =>
      intro rest cur
      rw [show spL (k+1+1) ++ rest = ' ' :: (spL (k+1) ++ rest) from rfl,
          wordsGo_cons_space, ih rest []]
      by_cases h : cur.isEmpty <;> simp [h]

theorem wordsGo_trailing (k : Nat) : ∀ (cur : List Char),
    wordsGo (spL k) cur = if cur.isEmpty then [] else [cur.reverse] := by
  induction k with
  | zero => intro cur; rfl
  | succ k ih =>
      intro cur
      rw [show spL (k+1) = ' ' :: spL k from rfl, wordsGo_cons_space, ih []]
      by_cases h : cur.isEmpty <;> simp [h]

theorem wordsGo_glue : ∀ (ps : List (Nat × List Char)),
    (∀ gw ∈ ps, 1 ≤ gw.1 ∧ gw.2 ≠ [] ∧ ' ' ∉ gw.2) →
    ∀ (cur : List Char),
      wordsGo (glue ps) cur =
        (if cur.isEmpty then [] else [cur.reverse]) ++
          ps.map (fun gw => gw.2) := by
  intro ps
  induction ps with
  | nil =>
      intro _ cur
      by_cases h : cur.isEmpty <;> simp [glue, wordsGo, h]
  | cons gw rest ih =>
      intro hps cur
      obtain ⟨hg, hne, hns⟩ := hps gw (by simp)
      rcases gw with ⟨g, w⟩
      obtain ⟨g', rfl⟩ : ∃ g', g = g' + 1 := ⟨g - 1, by omega⟩
      show wordsGo ((spL (g'+1) ++ w) ++ glue rest) cur = _
      rw [List.append_assoc, wordsGo_spaces g' (w ++ glue rest) cur,
          wordsGo_append_word w hns (glue rest) [],
          ih (fun x hx => hps x (List.mem_cons_of_mem _ hx)) (w.reverse ++ [])]
      by_cases h : cur.isEmpty <;> simp [h, hne]

theorem wordsGo_word_glue (w : List Char) (ps : List (Nat × List Char))
    (hw : w ≠ []) (hns : ' ' ∉ w)
    (hps : ∀ gw ∈ ps, 1 ≤ gw.1 ∧ gw.2 ≠ [] ∧ ' ' ∉ gw.2) :
    wordsGo (w ++ glue ps) [] = w :: ps.map (fun gw => gw.2) := by
  rw [wordsGo_append_word w hns (glue ps) [], wordsGo_glue ps hps (w.reverse ++ [])]
  simp [hw]

theorem mk_data (s : String) : String.mk s.data = s := rfl

theorem data_space : (" " : String).data = [' '] := rfl

theorem tableLine_data (x0 x1 x2 x3 x4 x5 x6 x7 x8 x9 x10 x11 x12 x13 x14 x15 : String) :
    (tableLine [x0, x1, x2, x3, x4, x5, x6, x7, x8, x9, x10, x11, x12, x13, x14, x15]).data
      = x0.data ++ glue
        [((18 - x0.data.length) + (1 + (8 - x1.data.length)), x1.data),
         (1 + (8 - x2.data.length), x2.data),
         (1 + (8 - x3.data.length), x3.data),
         (1 + (8 - x4.data.length), x4.data),
         (1 + (8 - x5.data.length), x5.data),
         (1 + (8 - x6.data.length), x6.data),
         (13 + (8 - x7.data.length), x7.data),
         (1 + (8 - x8.data.length), x8.data),
         (1 + (8 - x9.data.length), x9.data),
         (1 + (8 - x10.data.length), x10.data),
         (1 + (8 - x11.data.length), x11.data),
         (1 + (8 - x12.data.length), x12.data),
         (1 + (8 - x13.data.length), x13.data),
         (13 + (8 - x14.data.length), x14.data),
         (1 + (14 - x15.data.length), x15.data)] := by
  simp [tableLine, ljust, rjust, glue, data_append, data_mk, data_space, spL,
    List.replicate_add, List.append_assoc]

theorem words_tableLine16
    (x0 x1 x2 x3 x4 x5 x6 x7 x8 x9 x10 x11 x12 x13 x14 x15 : String)
    (h : ∀ x ∈ [x0, x1, x2, x3, x4, x5, x6, x7, x8, x9, x10, x11, x12, x13, x14, x15],
      wordlike x) :
    words (tableLine [x0, x1, x2, x3, x4, x5, x6, x7, x8, x9, x10, x11, x12, x13, x14, x15])
      = [x0, x1, x2, x3, x4, x5, x6, x7, x8, x9, x10, x11, x12, x13, x14, x15] := by
  have h0 := h x0 (by simp)
  have h1 := h x1 (by simp)
  have h2 := h x2 (by simp)
  have h3 := h x3 (by simp)
  have h4 := h x4 (by simp)
  have h5 := h x5 (by simp)
  have h6 := h x6 (by simp)
  have h7 := h x7 (by simp)
  have h8 := h x8 (by simp)
  have h9 := h x9 (by simp)
  have h10 := h x10 (by simp)
  have h11 := h x11 (by simp)
  have h12 := h x12 (by simp)
  have h13 := h x13 (by simp)
  have h14 := h x14 (by simp)
  have h15 := h x15 (by simp)
  unfold words
  rw [tableLine_data, wordsGo_word_glue x0.data _ h0.1 h0.2 ?hps]
  · simp [mk_data]
  case hps =>
    simp only [List.forall_mem_cons]
    exact ⟨⟨by omega, h1.1, h1.2⟩, ⟨by omega, h2.1, h2.2⟩, ⟨by omega, h3.1, h3.2⟩,
      ⟨by omega, h4.1, h4.2⟩, ⟨by omega, h5.1, h5.2⟩, ⟨by omega, h6.1, h6.2⟩,
      ⟨by omega, h7.1, h7.2⟩, ⟨by omega, h8.1, h8.2⟩, ⟨by omega, h9.1, h9.2⟩,
      ⟨by omega, h10.1, h10.2⟩, ⟨by omega, h11.1, h11.2⟩, ⟨by omega, h12.1, h12.2⟩,
      ⟨by omega, h13.1, h13.2⟩, ⟨by omega, h14.1, h14.2⟩, ⟨by omega, h15.1, h15.2⟩,
      by simp⟩

theorem words_tableLine_len (ws : List String) (hlen : ws.length = 16)
    (h : ∀ x ∈ ws, wordlike x) :
    words (tableLine ws) = ws := by
  rcases ws with _|⟨x0, ws⟩
  · simp only [List.length_nil] at hlen; omega
  rcases ws with _|⟨x1, ws⟩
  · simp only [List.length_cons, List.length_nil] at hlen; omega
  rcases ws with _|⟨x2, ws⟩
  · simp only [List.length_cons, List.length_nil] at hlen; omega
  rcases ws with _|⟨x3, ws⟩
  · simp only [List.length_cons, List.length_nil] at hlen; omega
  rcases ws with _|⟨x4, ws⟩
  · simp only [List.length_cons, List.length_nil] at hlen; omega
  rcases ws with _|⟨x5, ws⟩
  · simp only [List.length_cons, List.length_nil] at hlen; omega
  rcases ws with _|⟨x6, ws⟩
  · simp only [List.length_cons, List.length_nil] at hlen; omega
  rcases ws with _|⟨x7, ws⟩
  · simp only [List.length_cons, List.length_nil] at hlen; omega
  rcases ws with _|⟨x8, ws⟩
  · simp only [List.length_cons, List.length_nil] at hlen; omega
  rcases ws with _|⟨x9, ws⟩
  · simp only [List.length_cons, List.length_nil] at hlen; omega
  rcases ws with _|⟨x10, ws⟩
  · simp only [List.length_cons, List.length_nil] at hlen; omega
  rcases ws with _|⟨x11, ws⟩
  · simp only [List.length_cons, List.length_nil] at hlen; omega
  rcases ws with _|⟨x12, ws⟩
  · simp only [List.length_cons, List.length_nil] at hlen; omega
  rcases ws with _|⟨x13, ws⟩
  · simp only [List.length_cons, List.length_nil] at hlen; omega
  rcases ws with _|⟨x14, ws⟩
  · simp only [List.length_cons, List.length_nil] at hlen; omega
  rcases ws with _|⟨x15, ws⟩
  · simp only [List.length_cons, List.length_nil] at hlen; omega
  rcases ws with _|⟨x16, ws⟩
  · exact words_tableLine16 x0 x1 x2 x3 x4 x5 x6 x7 x8 x9 x10 x11 x12 x13 x14 x15 h
  · simp only [List.length_cons, List.length_nil] at hlen; omega

theorem words_plainLine (k v : String) (hk : wordlike k) (hv : wordlike v) :
    words (plainLine k v) = [k, v] := by
  unfold words
  have hdata : (plainLine k v).data =
      k.data ++ (spL ((18 - k.data.length) + 1) ++
        (v.data ++ spL (10 - v.data.length))) := by
    simp [plainLine, ljust, data_append, data_mk, data_space, spL,
      List.replicate_add, List.append_assoc]
  rw [hdata, wordsGo_append_word k.data hk.2,
      wordsGo_spaces (18 - k.data.length) _ _,
      wordsGo_append_word v.data hv.2,
      wordsGo_trailing (10 - v.data.length) _]
  simp [hk.1, hv.1, mk_data]

theorem csvField_safe (s : String) (h : csvSafe s) : csvField s = s := by
  unfold csvField
  rw [h]
  simp

theorem csvParseGo_field (f : List Char)
    (hf : ∀ c ∈ f, safeChar c = true) :
    ∀ (rest cur : List Char),
      csvParseGo false (f ++ rest) cur = csvParseGo false rest (f.reverse ++ cur) := by
  induction f with
  | nil => intro rest cur; simp
  | cons c cs ih =>
      intro rest cur
      have hc := hf c (by simp)
      have hc1 : ¬ (c = ',') := by
        intro h; rw [h] at hc; simp [safeChar, isPyWhite] at hc
      have hc2 : ¬ (c = '\"') := by
        intro h; rw [h] at hc; simp [safeChar, isPyWhite] at hc
      simp only [List.cons_append, csvParseGo, if_neg hc1, if_neg hc2]
      rw [ih (fun c' hm => hf c' (List.mem_cons_of_mem _ hm)) rest (c :: cur)]
      simp

theorem csvParseGo_comma (rest cur : List Char) :
    csvParseGo false (',' :: rest) cur =
      String.mk cur.reverse :: csvParseGo false rest [] := by
  simp [csvParseGo]

theorem csvParseGo_nil (cur : List Char) :
    csvParseGo false [] cur = [String.mk cur.reverse] := by
  simp [csvParseGo]

theorem csvParse_joinComma : ∀ (fs : List (List Char)), fs ≠ [] →
    (∀ f ∈ fs, ∀ c ∈ f, safeChar c = true) →
    csvParseGo false (joinComma fs) [] = fs.map (fun f => String.mk f) := by
  intro fs
  induction fs with
  | nil => intro h; exact absurd rfl h
  | cons f fs ih =>
      intro _ hsafe
      rcases fs with _ | ⟨f2, fs2⟩
      · show csvParseGo false f [] = [String.mk f]
        rw [show f = f ++ [] from (List.append_nil f).symm,
            csvParseGo_field f (hsafe f (by simp)) [] [], csvParseGo_nil]
        simp
      · show csvParseGo false (f ++ ',' :: joinComma (f2 :: fs2)) [] = _
        rw [csvParseGo_field f (hsafe f (by simp)) (',' :: joinComma (f2 :: fs2)) [],
            List.append_nil, csvParseGo_comma,
            ih (by simp) (fun g hg c hc => hsafe g (List.mem_cons_of_mem _ hg) c hc)]
        simp

theorem joinComma_last (f : List Char) (hne : f ≠ []) :
    ∀ (fs : List (List Char)),
      joinComma (fs ++ [f]) ≠ [] ∧
      (joinComma (fs ++ [f])).reverse.head? = f.reverse.head? := by
  intro fs
  induction fs with
  | nil => exact ⟨hne, rfl⟩
  | cons g gs ih =>
      rcases hx : f.reverse with _ | ⟨a, t⟩
      · exact absurd (by simpa using congrArg List.reverse hx) hne
      rcases gs with _ | ⟨g2, gs2⟩
      · refine ⟨?_, ?_⟩
        · rw [show joinComma ([g] ++ [f]) = g ++ ',' :: f from rfl]
          simp
        · show ((g ++ ',' :: f).reverse).head? = (a :: t).head?
          rw [List.reverse_append, List.reverse_cons, hx]
          simp
      · obtain ⟨ihne, ihhead⟩ := ih
        refine ⟨?_, ?_⟩
        · show g ++ ',' :: joinComma ((g2 :: gs2) ++ [f]) ≠ []
          simp
        · show ((g ++ ',' :: joinComma ((g2 :: gs2) ++ [f])).reverse).head? =
            (a :: t).head?
          rw [List.reverse_append, List.reverse_cons]
          rcases hy : (joinComma ((g2 :: gs2) ++ [f])).reverse with _ | ⟨b, u⟩
          · exact absurd (by simpa using congrArg List.reverse hy)
              (by simpa using ihne)
          · rw [hx, hy] at ihhead
            simpa using ihhead

theorem rstrip_crlf (x : List Char) (c : Char) (hc : x.reverse.head? = some c)
    (hw : isPyWhite c = false) :
    rstrip (String.mk (x ++ ['\x0d', '\n'])) = String.mk x := by
  unfold rstrip
  rw [data_mk]
  congr 1
  rw [List.reverse_append]
  show (List.dropWhile isPyWhite ('\n' :: '\x0d' :: x.reverse)).reverse = x
  rcases hx : x.reverse with _ | ⟨a, t⟩
  · rw [hx] at hc; cases hc
  · have ha : a = c := by rw [hx] at hc; exact Option.some_inj.mp hc
    have hw' : isPyWhite a = false := by rw [ha]; exact hw
    simp [List.dropWhile_cons, hw',
      (by decide : isPyWhite '\n' = true),
      (by decide : isPyWhite '\x0d' = true)]
    have := congrArg List.reverse hx
    simpa using this.symm

theorem map_csvField_safe (fields : List String)
    (h : ∀ f ∈ fields, csvSafe f) :
    fields.map csvField = fields := by
  induction fields with
  | nil => rfl
  | cons f fs ih =>
      simp [csvField_safe f (h f (by simp)),
        ih (fun g hg => h g (List.mem_cons_of_mem _ hg))]

theorem csvParse_csvLine (fields : List String) (hne : fields ≠ [])
    (htok : ∀ f ∈ fields, tokenlike f) :
    csvParse (csvLine fields) = fields := by
  rcases List.eq_nil_or_concat fields with rfl | ⟨fs, f, rfl⟩
  · exact absurd rfl hne
  simp only [List.concat_eq_append] at htok ⊢
  have hmapfield : (fs ++ [f]).map csvField = fs ++ [f] :=
    map_csvField_safe _ (fun g hg => tokenlike_csvSafe g (htok g hg))
  have hfd : f.data ≠ [] := (htok f (by simp)).1
  have hjoin := joinComma_last f.data hfd (fs.map String.data)
  rcases tokenlike_last_not_white f (htok f (by simp)) with ⟨c, hc, hwc⟩
  have hmapdata : (fs ++ [f]).map String.data = fs.map String.data ++ [f.data] := by
    simp
  unfold csvLine
  rw [hmapfield, hmapdata]
  rw [rstrip_crlf (joinComma (fs.map String.data ++ [f.data])) c
    (hjoin.2.trans hc) hwc]
  unfold csvParse
  rw [data_mk]
  rw [csvParse_joinComma (fs.map String.data ++ [f.data])
    (by simp)
    ?safe]
  · rw [← hmapdata]
    have hmkdata : ∀ (l : List String),
        (l.map String.data).map (fun x => String.mk x) = l := by
      intro l
      induction l with
      | nil => rfl
      | cons sh st ihl => simp [mk_data, ihl]
    exact hmkdata _
  case safe =>
    intro g hg ch hch
    rw [← hmapdata] at hg
    rcases List.mem_map.mp hg with ⟨s, hs, rfl⟩
    exact (htok s hs).2 ch hch

theorem map_words_plain : ∀ (d : St),
    (∀ kv ∈ d, wordlike kv.1) → (∀ kv ∈ d, wordlike (pyStr kv.2)) →
    (printStatsPlain d).map words = d.map (fun kv => [kv.1, pyStr kv.2]) := by
  intro d
  induction d with
  | nil => intro _ _; rfl
  | cons kv rest ih =>
      intro hname hval
      show (words (plainLine kv.1 (pyStr kv.2))) :: (printStatsPlain rest).map words = _
      rw [words_plainLine kv.1 (pyStr kv.2) (hname kv (by simp)) (hval kv (by simp)),
          ih (fun x hx => hname x (List.mem_cons_of_mem _ hx))
             (fun x hx => hval x (List.mem_cons_of_mem _ hx))]
      rfl

theorem schemaNames_tokenlike : ∀ x ∈ schemaNames, tokenlike x := by decide

/-- C7: for every DeltaRecord reachable from initialisation by successful
updates whose snapshot values are source tokens (whatever keys the raw
snapshots held), the table-mode header line and value line each split into
exactly 16 whitespace-separated columns: the header columns are the schema
names in CounterSchema order, and the value columns are the rendered
values of the record in that same order.  The widths come from the format
string embedded in `tableLine`: field 0 left-justified at 18, fields 1-14
right-justified at 8, field 15 right-justified at 14. -/
theorem mdstats_c7_table_columns (snaps : List Snap) (p d : St)
    (h : runUpdates snaps initState initState = .ok (p, d))
    (hvals : ∀ s ∈ snaps, ∀ kv ∈ s, tokenlike kv.2) :
    words (printHeaderTable d) = schemaNames ∧
    (words (printHeaderTable d)).length = 16 ∧
    words (printStatsTable d) = d.map (fun kv => pyStr kv.2) ∧
    (words (printStatsTable d)).length = 16 := by
  have hinv := runUpdates_inv snaps initState initState p d h
    keysOf_initState keysOf_initState nonTsInt_initState nonTsInt_initState
  have hk : keysOf d = schemaNames := hinv.2.1
  have hsv := runUpdates_strVals tokenlike snaps initState initState p d h
    hvals (strVals_initState _) (strVals_initState _)
  have htok := pyStr_tokenlike d hsv.2
  have hdlen : d.length = 16 := by
    have := congrArg List.length hk
    simpa [keysOf] using this
  have hheader : words (printHeaderTable d) = schemaNames := by
    show words (tableLine (keysOf d)) = schemaNames
    rw [hk]
    exact words_tableLine_len schemaNames (by decide)
      (fun x hx => tokenlike_wordlike x (schemaNames_tokenlike x hx))
  have hstats : words (printStatsTable d) = d.map (fun kv => pyStr kv.2) := by
    show words (tableLine (d.map (fun kv => pyStr kv.2))) = _
    refine words_tableLine_len _ (by simp [hdlen]) ?_
    intro x hx
    rcases List.mem_map.mp hx with ⟨kv, hkv, rfl⟩
    exact tokenlike_wordlike _ (htok kv hkv)
  refine ⟨hheader, by rw [hheader]; decide, hstats, by rw [hstats]; simp [hdlen]⟩

theorem mdstats_c7_witness :
    ∃ p d, runUpdates [[("open", "7"), ("snapshot_time", "88.8")]]
        initState initState = .ok (p, d) ∧
      (words (printHeaderTable d) = schemaNames ∧
       (words (printHeaderTable d)).length = 16 ∧
       words (printStatsTable d) = d.map (fun kv => pyStr kv.2) ∧
       (words (printStatsTable d)).length = 16) := by
  refine ⟨_, _, rfl, ?_⟩
  exact mdstats_c7_table_columns [[("open", "7"), ("snapshot_time", "88.8")]]
    _ _ rfl
    (by intro s hs kv hkv; simp at hs; subst hs; simp at hkv;
        rcases hkv with hkv | hkv <;> subst hkv <;> decide)

/-- C8: plain mode and CSV mode state the same name-to-value associations
for every reachable DeltaRecord: each plain-mode line splits into exactly
the counter name and its rendered value, and zipping the parsed CSV header
line with the parsed CSV value line yields exactly those (name, value)
pairs in the same order. -/
theorem mdstats_c8_plain_csv_agree (snaps : List Snap) (p d : St)
    (h : runUpdates snaps initState initState = .ok (p, d))
    (hvals : ∀ s ∈ snaps, ∀ kv ∈ s, tokenlike kv.2) :
    (printStatsPlain d).map words = d.map (fun kv => [kv.1, pyStr kv.2]) ∧
    (csvParse (printHeaderCsv d)).zip (csvParse (printStatsCsv d)) =
      d.map (fun kv => (kv.1, pyStr kv.2)) := by
  have hinv := runUpdates_inv snaps initState initState p d h
    keysOf_initState keysOf_initState nonTsInt_initState nonTsInt_initState
  have hk : keysOf d = schemaNames := hinv.2.1
  have hsv := runUpdates_strVals tokenlike snaps initState initState p d h
    hvals (strVals_initState _) (strVals_initState _)
  have htok := pyStr_tokenlike d hsv.2
  have hdlen : d.length = 16 := by
    have := congrArg List.length hk
    simpa [keysOf] using this
  have hkeytok : ∀ kv ∈ d, tokenlike kv.1 := by
    intro kv hm
    have hmem : kv.1 ∈ keysOf d := List.mem_map_of_mem Prod.fst hm
    rw [hk] at hmem
    exact schemaNames_tokenlike kv.1 hmem
  constructor
  · exact map_words_plain d
      (fun kv hm => tokenlike_wordlike _ (hkeytok kv hm))
      (fun kv hm => tokenlike_wordlike _ (htok kv hm))
  · have hheadercsv : csvParse (printHeaderCsv d) = keysOf d := by
      show csvParse (csvLine (keysOf d)) = keysOf d
      rw [hk]
      exact csvParse_csvLine schemaNames (by decide) schemaNames_tokenlike
    have hstatscsv : csvParse (printStatsCsv d) =
        d.map (fun kv => pyStr kv.2) := by
      show csvParse (csvLine (d.map (fun kv => pyStr kv.2))) = _
      refine csvParse_csvLine _ ?_ ?_
      · intro h0
        have := congrArg List.length h0
        simp [hdlen] at this
      · intro f hf
        rcases List.mem_map.mp hf with ⟨kv, hkv, rfl⟩
        exact htok kv hkv
    rw [hheadercsv, hstatscsv]
    show (d.map Prod.fst).zip (d.map fun kv => pyStr kv.2) = _
    rw [List.zip_map']

theorem mdstats_c8_witness :
    ∃ p d, runUpdates [[("open", "9"), ("snapshot_time", "42.5")]]
        initState initState = .ok (p, d) ∧
      ((printStatsPlain d).map words = d.map (fun kv => [kv.1, pyStr kv.2]) ∧
       (csvParse (printHeaderCsv d)).zip (csvParse (printStatsCsv d)) =
         d.map (fun kv => (kv.1, pyStr kv.2))) := by
  refine ⟨_, _, rfl, ?_⟩
  exact mdstats_c8_plain_csv_agree [[("open", "9"), ("snapshot_time", "42.5")]]
    _ _ rfl
    (by intro s hs kv hkv; simp at hs; subst hs; simp at hkv;
        rcases hkv with hkv | hkv <;> subst hkv <;> decide)
